import Mathlib

/-!
Shallow embedding of the FiloDB tantivy native core (`core/src/rust/src`):
the cachable-query taxonomy and doc-set cache (`query/cache.rs`), the
query executor (`state.rs`), the prefix-skipping regex automaton
(`query/range_aware_regex.rs`), the collectors
(`reader/part_id_collector.rs`, `reader/part_key_collector.rs`,
`reader/part_key_record_collector.rs`), the column cache
(`reader/column_cache.rs`) and the JNI reader entry points (`reader.rs`).

Machine integers are modelled as `Nat`/`Int`; byte blobs as `List Nat`;
`SegmentId` (an opaque uuid) as `Nat`.  External collaborators (the query
parser, tantivy weight iteration, fast-field columns) are function
parameters of the definitions that call them.
-/

namespace FiloDB

/-- Error kinds of the core.  Modelled from the spec: the repository's
`errors.rs` (`JavaException` / `JavaResult`) is not part of the sources at
hand; the spec's §7 taxonomy of error kinds is used instead:
`FieldNotFound`, `ParseError`, `IoError`, `InvalidArgument`, `RuntimeError`. -/
inductive Err where
  | fieldNotFound (field : String)
  | parseError
  | ioError
  | invalidArgument
  | runtimeError
  deriving DecidableEq, Repr

/-- Rust `CachableQuery` from `query/cache.rs`.  Byte payloads (`Arc<Box<[u8]>>`)
are `List Nat`, the part-id list (`Arc<Box<[i32]>>`) is `List Int`,
`i64`/`i32` scalars are `Int`. -/
inductive CachableQuery where
  | Complex (bytes : List Nat)
  | ByPartKey (partKey : List Nat)
  | ByPartIds (partIds : List Int)
  | ByEndTime (endedBefore : Int)
  | ByPartId (partId : Int)
  | All
  deriving DecidableEq, Repr

namespace CachableQuery

/-- Rust `CachableQuery::should_cache` from `query/cache.rs`. -/
def should_cache : CachableQuery → Bool
  | .Complex _ => true
  | .ByPartIds _ => true
  | .ByEndTime _ => true
  | .All => false
  | .ByPartId _ => false
  | .ByPartKey _ => false

end CachableQuery

/-- Reserved field names from `state.rs::field_constants`. -/
def PART_ID : String := "__partIdDv__"

def PART_KEY : String := "__partKey__"

def START_TIME : String := "__startTime__"

def END_TIME : String := "__endTime__"

/-- Compiled query shapes produced by `CachableQuery::to_query`.
`parsed` stands for the opaque result of the external query parser. -/
inductive Query where
  | parsed (tag : Nat)
  | term (field : String) (bytes : List Nat)
  | termI64 (field : String) (v : Int)
  | termSet (field : String) (terms : List Int)
  | range (field : String) (lo hi : Int)
  | all
  deriving DecidableEq, Repr

/-- Rust `Schema::get_field`: succeeds when the schema contains the field. -/
def getField (schema : List String) (name : String) : Except Err String :=
  if schema.contains name then .ok name else .error (.fieldNotFound name)

/-- Rust `CachableQuery::to_query` from `query/cache.rs`.  The external
`parse_query` collaborator is the `parse` parameter (it receives the raw
bytes, the schema and the default JSON field).  `i32` part ids are widened
to `i64`, which is the identity on `Int`.  The `ByEndTime` arm builds the
range query from the field's name directly, without a schema lookup,
exactly as the source does. -/
def toQuery (parse : List Nat → List String → Option String → Except Err Query)
    (schema : List String) (defaultField : Option String) :
    CachableQuery → Except Err Query
  | .Complex bytes => parse bytes schema defaultField
  | .ByPartKey partKey =>
    match getField schema PART_KEY with
    | .error e => .error e
    | .ok f => .ok (.term f partKey)
  | .ByPartIds partIds =>
    match getField schema PART_ID with
    | .error e => .error e
    | .ok f => .ok (.termSet f partIds)
  | .All => .ok .all
  | .ByPartId partId =>
    match getField schema PART_ID with
    | .error e => .error e
    | .ok f => .ok (.termI64 f partId)
  | .ByEndTime endedBefore => .ok (.range END_TIME 0 endedBefore)

/-- A tantivy `BitSet`: `with_max_value(m)` fixes `maxValue := m`; the
inserted doc ids are kept as a list. -/
structure BitSet where
  maxValue : Nat
  bits : List Nat
  deriving DecidableEq, Repr

/-- Rust `size_of::<(SegmentId, CachableQuery)>()` on the reference 64-bit
platform: a 16-byte uuid `SegmentId` plus a 16-byte `CachableQuery` enum. -/
def KEY_STRUCT_SIZE : Nat := 32

/-- Rust `size_of::<Box<[u8]>>()` / `size_of::<Box<[i32]>>()`: a fat pointer. -/
def BOX_SLICE_SIZE : Nat := 16

/-- The `bitset_size` term of `CachableQueryWeighter::weight`:
`((val.max_value() as usize + 63) / 64) * 8`. -/
def bitsetSize (maxValue : Nat) : Nat := (maxValue + 63) / 64 * 8

/-- The `type_size` match of `CachableQueryWeighter::weight`. -/
def typeSize : CachableQuery → Nat
  | .Complex bytes => bytes.length + BOX_SLICE_SIZE
  | .ByPartKey partKey => partKey.length + BOX_SLICE_SIZE
  | .ByPartIds partIds => partIds.length * 4 + BOX_SLICE_SIZE
  | .All => 0
  | .ByPartId _ => 0
  | .ByEndTime _ => 0

/-- Rust `CachableQueryWeighter::weight` from `query/cache.rs`:
`type_size + key_size + bitset_size`. -/
def weight (key : Nat × CachableQuery) (val : BitSet) : Nat :=
  typeSize key.2 + KEY_STRUCT_SIZE + bitsetSize val.maxValue

/-- The spec's weight formula (§3 / §8 property 3), stated with the spec's
bitset-bytes convention `ceil((max_value+1)/64)*8`.  Kept separate from
`weight` (which embeds the source) so the two can be compared. -/
def specWeight (key : Nat × CachableQuery) (val : BitSet) : Nat :=
  KEY_STRUCT_SIZE + typeSize key.2 + (val.maxValue + 1 + 63) / 64 * 8

/-- One immutable segment of the reader snapshot: its `SegmentId` and
`max_doc`. -/
structure Segment where
  segId : Nat
  maxDoc : Nat
  deriving DecidableEq, Repr

/-- The doc-set cache of `IndexHandle`: entries keyed by
`(SegmentId, CachableQuery)` holding an `Arc<BitSet>`. -/
def QueryCache := List ((Nat × CachableQuery) × BitSet)

instance : DecidableEq QueryCache := by
  unfold QueryCache
  infer_instance

/-- Rust `Cache::get` with the borrowed key `CachableQueryKey(segId, &query)`. -/
def cacheGet (cache : QueryCache) (segId : Nat) (query : CachableQuery) :
    Option BitSet :=
  match cache.find? (fun e => e.1 == (segId, query)) with
  | some e => some e.2
  | none => none

/-- Rust `Cache::insert` of the owned key clone `(segId, query)`. -/
def cacheInsert (cache : QueryCache) (segId : Nat) (query : CachableQuery)
    (val : BitSet) : QueryCache :=
  ((segId, query), val) :: cache

/-- The per-segment loop of `IndexHandle::execute_cachable_query`
(`state.rs`).  Parameters stand for the collaborators:
`compile` is `cachable_query.to_query(..)` followed by `query.weight(..)`
(the call counter threaded through the result counts its invocations);
`evalWeight` is `weight.for_each_no_score` enumerating the matching doc ids
of a segment; `collectSeg` is `collector.collect_segment` on the
`BitSetWeight` of the bound bitset.  The returned triple carries the
accumulated fruits (or the first error), the doc-set cache after the loop,
and the number of `compile` invocations. -/
def execLoop {Fruit : Type}
    (compile : Unit → Except Err Query)
    (evalWeight : Query → Segment → Except Err (List Nat))
    (collectSeg : BitSet → Nat → Segment → Except Err Fruit)
    (q : CachableQuery) (queryWeight : Option Query) (compiles : Nat)
    (cache : QueryCache) (acc : List Fruit) (ord : Nat) :
    List Segment → Except Err (List Fruit) × QueryCache × Nat
  | [] => (.ok acc.reverse, cache, compiles)
  | seg :: rest =>
    match cacheGet cache seg.segId q with
    | some docs =>
      -- Cache hit: hand the cached bitset straight to the collector.
      match collectSeg docs ord seg with
      | .error e => (.error e, cache, compiles)
      | .ok fruit =>
        execLoop compile evalWeight collectSeg q queryWeight compiles cache
          (fruit :: acc) (ord + 1) rest
    | none =>
      match queryWeight with
      | some w =>
        match evalWeight w seg with
        | .error e => (.error e, cache, compiles)
        | .ok docIds =>
          let bitset : BitSet := ⟨seg.maxDoc, docIds⟩
          let cache2 := if q.should_cache then
            cacheInsert cache seg.segId q bitset else cache
          match collectSeg bitset ord seg with
          | .error e => (.error e, cache2, compiles)
          | .ok fruit =>
            execLoop compile evalWeight collectSeg q (some w) compiles cache2
              (fruit :: acc) (ord + 1) rest
      | none =>
        match compile () with
        | .error e => (.error e, cache, compiles + 1)
        | .ok w =>
          match evalWeight w seg with
          | .error e => (.error e, cache, compiles + 1)
          | .ok docIds =>
            let bitset : BitSet := ⟨seg.maxDoc, docIds⟩
            let cache2 := if q.should_cache then
              cacheInsert cache seg.segId q bitset else cache
            match collectSeg bitset ord seg with
            | .error e => (.error e, cache2, compiles + 1)
            | .ok fruit =>
              execLoop compile evalWeight collectSeg q (some w) (compiles + 1)
                cache2 (fruit :: acc) (ord + 1) rest

/-- The tail of `IndexHandle::execute_cachable_query`: surface a loop
error unchanged, otherwise `collector.merge_fruits(fruits)`. -/
def mergeStep {Fruit : Type} (mergeFruits : List Fruit → Except Err Fruit) :
    Except Err (List Fruit) × QueryCache × Nat →
    Except Err Fruit × QueryCache × Nat
  | (.error e, c, n) => (.error e, c, n)
  | (.ok fruits, c, n) => (mergeFruits fruits, c, n)

/-- Rust `IndexHandle::execute_cachable_query` (`state.rs`): run the per-segment
loop over the reader snapshot's segments, then `collector.merge_fruits`. -/
def executeCachableQuery {Fruit : Type}
    (compile : Unit → Except Err Query)
    (evalWeight : Query → Segment → Except Err (List Nat))
    (collectSeg : BitSet → Nat → Segment → Except Err Fruit)
    (mergeFruits : List Fruit → Except Err Fruit)
    (cache : QueryCache) (segments : List Segment) (q : CachableQuery) :
    Except Err Fruit × QueryCache × Nat :=
  mergeStep mergeFruits
    (execLoop compile evalWeight collectSeg q none 0 cache [] 0 segments)

/-- The cache-hits-only run: collect every segment's fruit from the bitset
already present in the doc-set cache, then merge; `none` when some segment
misses the cache.  Used to state that a fully cached executor call touches
neither the compiler nor the cache. -/
def cachedRun {Fruit : Type}
    (collectSeg : BitSet → Nat → Segment → Except Err Fruit)
    (mergeFruits : List Fruit → Except Err Fruit)
    (cache : QueryCache) (q : CachableQuery) (segments : List Segment) :
    Option (Except Err Fruit) :=
  go [] 0 segments
where
  go (acc : List Fruit) (ord : Nat) :
      List Segment → Option (Except Err Fruit)
    | [] => some (mergeFruits acc.reverse)
    | seg :: rest =>
      match cacheGet cache seg.segId q with
      | none => none
      | some docs =>
        match collectSeg docs ord seg with
        | .error e => some (.error e)
        | .ok fruit => go (fruit :: acc) (ord + 1) rest

/-- Rust `SkipPrefixAutomaton<A>` from `query/range_aware_regex.rs`, with the
inner automaton `A` given by its state type `σ` and its four operations. -/
structure SkipPrefixAutomaton (σ : Type) where
  prefixSize : Nat
  innerStart : σ
  innerAccept : σ → Nat → σ
  innerIsMatch : σ → Bool
  innerCanMatch : σ → Bool
  innerWillAlwaysMatch : σ → Bool

/-- Rust `SkipPrefixAutomatonState<A>`: a byte counter plus the inner state. -/
structure SkipPrefixAutomatonState (σ : Type) where
  count : Nat
  inner : σ
  deriving DecidableEq, Repr

namespace SkipPrefixAutomaton

variable {σ : Type}

/-- Rust `Automaton::start` of the wrapper. -/
def start (a : SkipPrefixAutomaton σ) : SkipPrefixAutomatonState σ :=
  ⟨0, a.innerStart⟩

/-- Rust `Automaton::accept` of the wrapper: swallow the byte while still inside
the prefix, delegate afterwards. -/
def accept (a : SkipPrefixAutomaton σ) (s : SkipPrefixAutomatonState σ)
    (byte : Nat) : SkipPrefixAutomatonState σ :=
  if s.count < a.prefixSize then ⟨s.count + 1, s.inner⟩
  else ⟨s.count, a.innerAccept s.inner byte⟩

/-- Rust `Automaton::is_match` of the wrapper. -/
def is_match (a : SkipPrefixAutomaton σ) (s : SkipPrefixAutomatonState σ) :
    Bool :=
  if s.count < a.prefixSize then false else a.innerIsMatch s.inner

/-- Rust `Automaton::can_match` of the wrapper. -/
def can_match (a : SkipPrefixAutomaton σ) (s : SkipPrefixAutomatonState σ) :
    Bool :=
  if s.count < a.prefixSize then true else a.innerCanMatch s.inner

/-- Rust `Automaton::will_always_match` of the wrapper. -/
def will_always_match (a : SkipPrefixAutomaton σ)
    (s : SkipPrefixAutomatonState σ) : Bool :=
  if s.count < a.prefixSize then false else a.innerWillAlwaysMatch s.inner

/-- Feed a byte sequence to the wrapper automaton. -/
def run (a : SkipPrefixAutomaton σ) (s : SkipPrefixAutomatonState σ)
    (w : List Nat) : SkipPrefixAutomatonState σ :=
  w.foldl a.accept s

/-- Feed a byte sequence to the inner automaton alone. -/
def innerRun (a : SkipPrefixAutomaton σ) (s : σ) (w : List Nat) : σ :=
  w.foldl a.innerAccept s

end SkipPrefixAutomaton

/-- A tantivy `BytesColumn` as the collectors see it: the `ords().first(doc)`
ordinal lookup and the fallible `ord_to_bytes` resolution. -/
structure BytesColumn where
  ordsFirst : Nat → Option Nat
  ordToBytes : Nat → Except Unit (List Nat)

/-- An `i64` fast-field `Column` as the collectors see it:
`column.first(doc)`. -/
structure ColumnI64 where
  first : Nat → Option Int

/-- Rust `PartKeySegmentCollector::collect` from `reader/part_key_collector.rs`:
the `doc` field is `some` once a part key has been stored; a doc whose
ordinal lookup or byte resolution fails leaves the state unchanged. -/
def pkCollect (col : BytesColumn) (st : Option (List Nat)) (doc : Nat) :
    Option (List Nat) :=
  match st with
  | some d => some d
  | none =>
    match col.ordsFirst doc with
    | none => none
    | some ord =>
      match col.ordToBytes ord with
      | .error _ => none
      | .ok partKey => some partKey

/-- Run `PartKeySegmentCollector` over the matching doc ids of one segment
and `harvest` the fruit. -/
def pkCollectAll (col : BytesColumn) (docs : List Nat) : Option (List Nat) :=
  docs.foldl (pkCollect col) none

/-- Resolution of one doc by the part-key collector: the two steps of
`collect` without the already-collected guard. -/
def pkResolve (col : BytesColumn) (doc : Nat) : Option (List Nat) :=
  match col.ordsFirst doc with
  | none => none
  | some ord =>
    match col.ordToBytes ord with
    | .error _ => none
    | .ok partKey => some partKey

/-- Rust `PartKeyCollector::merge_fruits`:
`segment_fruits.into_iter().flatten().next()`. -/
def pkMergeFruits (segmentFruits : List (Option (List Nat))) :
    Option (List Nat) :=
  (segmentFruits.filterMap id).head?

/-- Rust `PartIdCollector::merge_fruits` from `reader/part_id_collector.rs`:
extend the result with each segment's fruit, taking at most
`limit - result.len()` elements from it. -/
def partIdMergeFruits (limit : Nat) (segmentFruits : List (List Int)) :
    List Int :=
  segmentFruits.foldl (fun result part =>
    result ++ part.take (limit - result.length)) []

/-- Rust `PartKeyRecord` from `reader/part_key_record_collector.rs`. -/
structure PartKeyRecord where
  partKey : List Nat
  startTime : Int
  endTime : Int
  deriving DecidableEq, Repr

/-- Rust `PartKeyRecordCollector::merge_fruits` from
`reader/part_key_record_collector.rs`: same remaining-budget concatenation
as the part-id collector. -/
def partKeyRecordMergeFruits (limit : Nat)
    (segmentFruits : List (List PartKeyRecord)) : List PartKeyRecord :=
  segmentFruits.foldl (fun result part =>
    result ++ part.take (limit - result.length)) []

/-- The borrowed doc-set cache key `CachableQueryKey<'a>(SegmentId,
&'a CachableQuery)` from `query/cache.rs`.  Borrowing is by-value in the
embedding: the structure holds the pointee. -/
structure CachableQueryKey where
  segId : Nat
  query : CachableQuery
  deriving DecidableEq, Repr

/-- Rust `From<CachableQueryKey<'a>> for (SegmentId, CachableQuery)`: clone the
borrowed payload into an owned key. -/
def CachableQueryKey.intoOwned (k : CachableQueryKey) :
    Nat × CachableQuery :=
  (k.segId, k.query)

/-- The derived `PartialEq` of `CachableQuery`: same variant and equal
payloads. -/
def cachableQueryBeq : CachableQuery → CachableQuery → Bool
  | .Complex a, .Complex b => a == b
  | .ByPartKey a, .ByPartKey b => a == b
  | .ByPartIds a, .ByPartIds b => a == b
  | .ByEndTime a, .ByEndTime b => a == b
  | .ByPartId a, .ByPartId b => a == b
  | .All, .All => true
  | _, _ => false

/-- Rust `Equivalent<(SegmentId, CachableQuery)> for CachableQueryKey<'a>`:
`self.0 == key.0 && *self.1 == key.1`. -/
def CachableQueryKey.equivalent (k : CachableQueryKey)
    (key : Nat × CachableQuery) : Bool :=
  k.segId == key.1 && cachableQueryBeq k.query key.2

/-- The token stream a `[u8]` slice feeds to a Rust hasher: the length
prefix, then each byte. -/
def byteSliceHashTokens (b : List Nat) : List Int :=
  (b.length : Int) :: b.map Int.ofNat

/-- The token stream an `[i32]` slice feeds to a Rust hasher. -/
def i32SliceHashTokens (v : List Int) : List Int :=
  (v.length : Int) :: v

/-- The token stream the derived `Hash` of `CachableQuery` feeds to a
hasher: the variant discriminant (declaration order in `query/cache.rs`),
then the payload; `Arc<Box<[T]>>` hashes as the underlying slice. -/
def cachableQueryHashTokens : CachableQuery → List Int
  | .Complex bytes => 0 :: byteSliceHashTokens bytes
  | .ByPartKey partKey => 1 :: byteSliceHashTokens partKey
  | .ByPartIds partIds => 2 :: i32SliceHashTokens partIds
  | .ByEndTime endedBefore => [3, endedBefore]
  | .ByPartId partId => [4, partId]
  | .All => [5]

/-- The token stream of a `SegmentId` (an opaque uuid, one token here). -/
def segIdHashTokens (segId : Nat) : List Int := [(segId : Int)]

/-- Derived `Hash` of the borrowed key `CachableQueryKey(SegmentId,
&CachableQuery)`: field 0 then field 1, a reference hashing as its
pointee. -/
def CachableQueryKey.hashTokens (k : CachableQueryKey) : List Int :=
  segIdHashTokens k.segId ++ cachableQueryHashTokens k.query

/-- Derived `Hash` of the owned key tuple `(SegmentId, CachableQuery)`. -/
def ownedQueryKeyHashTokens (key : Nat × CachableQuery) : List Int :=
  segIdHashTokens key.1 ++ cachableQueryHashTokens key.2

/-- The borrowed column-cache key `CacheKey<'a>(SegmentId, &'a str)` from
`reader/column_cache.rs`. -/
structure CacheKey where
  segId : Nat
  fieldName : String
  deriving DecidableEq, Repr

/-- Rust `From<CacheKey<'a>> for (SegmentId, String)`. -/
def CacheKey.intoOwned (k : CacheKey) : Nat × String :=
  (k.segId, k.fieldName)

/-- Rust `Equivalent<(SegmentId, String)> for CacheKey<'a>`:
`self.0 == key.0 && self.1 == key.1`. -/
def CacheKey.equivalent (k : CacheKey) (key : Nat × String) : Bool :=
  k.segId == key.1 && k.fieldName == key.2

/-- The token stream `str` feeds to a Rust hasher (its bytes then the
`0xFF` terminator); `String` hashes identically by delegation.  Characters
stand in for bytes. -/
def strHashTokens (s : String) : List Int :=
  s.data.map (fun c => (c.toNat : Int)) ++ [255]

/-- Derived `Hash` of the borrowed key `CacheKey(SegmentId, &str)`. -/
def CacheKey.hashTokens (k : CacheKey) : List Int :=
  segIdHashTokens k.segId ++ strHashTokens k.fieldName

/-- Derived `Hash` of the owned key tuple `(SegmentId, String)`. -/
def ownedCacheKeyHashTokens (key : Nat × String) : List Int :=
  segIdHashTokens key.1 ++ strHashTokens key.2

/-- Rust `PartKeyCollector` plugged into `Collector::collect_segment`:
`for_segment` opens the `PART_KEY` bytes column through the column cache
(an absent column is a `FieldNotFound` error), the bitset weight replays
the bound doc ids into `collect`, and `harvest` returns the fruit. -/
def pkCollectSeg (getBytesColumn : Segment → Except Err (Option BytesColumn))
    (docs : BitSet) (_ord : Nat) (seg : Segment) :
    Except Err (Option (List Nat)) :=
  match getBytesColumn seg with
  | .error e => .error e
  | .ok none => .error (.fieldNotFound PART_KEY)
  | .ok (some col) => .ok (pkCollectAll col docs.bits)

/-- Rust `PartKeyCollector::merge_fruits` wrapped in the executor's fallible
merge signature (the source merge always succeeds). -/
def pkMergeFruitsE (segmentFruits : List (Option (List Nat))) :
    Except Err (Option (List Nat)) :=
  .ok (pkMergeFruits segmentFruits)

/-- Rust `Java_..._queryPartKey` from `reader.rs`: reject any `limit ≠ 1`
before reading the query bytes or touching the index, then execute the
`Complex` query with a `PartKeyCollector`.  The rejection's error kind is
modelled from the spec (§7: `InvalidArgument`, e.g. `limit ≠ 1` in
`queryPartKey`); the exception constructor itself lives in the
out-of-scope `errors.rs`. -/
def queryPartKey
    (parse : List Nat → List String → Option String → Except Err Query)
    (schema : List String) (defaultField : Option String)
    (evalWeight : Query → Segment → Except Err (List Nat))
    (getBytesColumn : Segment → Except Err (Option BytesColumn))
    (cache : QueryCache) (segments : List Segment)
    (queryBytes : List Nat) (limit : Int) :
    Except Err (Option (List Nat)) × QueryCache × Nat :=
  if limit ≠ 1 then (.error .invalidArgument, cache, 0)
  else
    let q := CachableQuery.Complex queryBytes
    executeCachableQuery (fun _ => toQuery parse schema defaultField q)
      evalWeight (pkCollectSeg getBytesColumn) pkMergeFruitsE
      cache segments q

/-- Observable outcome of one `refreshReaders` call: the handle's
`changes_pending` flag afterwards, whether `writer.commit()` and
`reader.reload()` were attempted, and the surfaced result. -/
structure RefreshOutcome where
  changesPending : Bool
  commitAttempted : Bool
  reloadAttempted : Bool
  result : Except Err Unit

/-- Rust `Java_..._refreshReaders` from `reader.rs`: swap `changes_pending` to
`false`, commit the writer when the swapped-out value was `true`, then
reload the reader.  The collaborators' outcomes are the `commitResult` and
`reloadResult` parameters; errors abort the sequence (`?`). -/
def refreshReaders (commitResult reloadResult : Except Err Unit)
    (changesPending : Bool) : RefreshOutcome :=
  -- let changes_pending = handle.changes_pending.swap(false, SeqCst);
  let pending := changesPending
  if pending then
    match commitResult with
    | .error e => ⟨false, true, false, .error e⟩
    | .ok _ =>
      match reloadResult with
      | .error e => ⟨false, true, true, .error e⟩
      | .ok _ => ⟨false, true, true, .ok ()⟩
  else
    match reloadResult with
    | .error e => ⟨false, false, true, .error e⟩
    | .ok _ => ⟨false, false, true, .ok ()⟩

section Theorems

/-- C3: `should_cache` returns `true` exactly for the variants `Complex`,
`ByPartIds` and `ByEndTime` of `CachableQuery`, and `false` exactly for
`All`, `ByPartId` and `ByPartKey`. -/
theorem should_cache_exactly (q : CachableQuery) :
    (q.should_cache = true ↔
      ((∃ b, q = CachableQuery.Complex b) ∨
        (∃ v, q = CachableQuery.ByPartIds v) ∨
        (∃ t, q = CachableQuery.ByEndTime t))) ∧
    (q.should_cache = false ↔
      (q = CachableQuery.All ∨
        (∃ x, q = CachableQuery.ByPartId x) ∨
        (∃ b, q = CachableQuery.ByPartKey b))) := by
  cases q <;> simp [CachableQuery.should_cache]

/-- C2 counterexample: the claim computes `bitset_bytes` as
`ceil((max_value+1)/64)*8`, but the source computes
`((max_value + 63) / 64) * 8`.  At `max_value = 0` (and any multiple of
64) the two differ: the source weighs an `All` entry with an empty bitset
at 32 bytes, the claim's formula at 40. -/
theorem weighter_bitset_bytes_counterexample :
    weight (0, CachableQuery.All) ⟨0, []⟩ = 32 ∧
    specWeight (0, CachableQuery.All) ⟨0, []⟩ = 40 ∧
    weight (0, CachableQuery.All) ⟨0, []⟩ ≠
      specWeight (0, CachableQuery.All) ⟨0, []⟩ := by
  refine ⟨rfl, rfl, ?_⟩
  decide

/-- C2 amended: for every key and bitset value the weight is the
deterministic sum `key_struct_size + payload_bytes + bitset_bytes`, where
`bitset_bytes = ((max_value + 63) / 64) * 8` (that is,
`ceil(max_value/64) * 8`, not the claim's `ceil((max_value+1)/64) * 8`)
and `payload_bytes` is `len(b) + box_overhead` for `Complex(b)` and
`ByPartKey(b)`, `4*len(v) + box_overhead` for `ByPartIds(v)`, and `0` for
`All`, `ByPartId` and `ByEndTime`. -/
theorem weighter_weight_closed_form (s : Nat) (q : CachableQuery)
    (val : BitSet) :
    weight (s, q) val =
      KEY_STRUCT_SIZE +
        (match q with
          | CachableQuery.Complex b => b.length + BOX_SLICE_SIZE
          | CachableQuery.ByPartKey b => b.length + BOX_SLICE_SIZE
          | CachableQuery.ByPartIds v => 4 * v.length + BOX_SLICE_SIZE
          | CachableQuery.ByEndTime _ => 0
          | CachableQuery.ByPartId _ => 0
          | CachableQuery.All => 0) +
        8 * ((val.maxValue + 63) / 64) := by
  cases q <;>
    simp [weight, typeSize, bitsetSize, KEY_STRUCT_SIZE, BOX_SLICE_SIZE] <;>
    omega

/-- Appending each part while taking only the remaining budget equals
truncating the flattened list to the budget. -/
theorem foldl_take_extend {α : Type} (limit : Nat) (fruits : List (List α))
    (acc : List α) (h : acc.length ≤ limit) :
    fruits.foldl (fun result part =>
        result ++ part.take (limit - result.length)) acc
      = acc ++ fruits.flatten.take (limit - acc.length) := by
  induction fruits generalizing acc with
  | nil => simp
  | cons x rest ih =>
    have hlen : (acc ++ x.take (limit - acc.length)).length ≤ limit := by
      simp [List.length_take]
      omega
    simp only [List.foldl_cons]
    rw [ih _ hlen, List.flatten_cons, List.take_append_eq_append_take,
      ← List.append_assoc]
    congr 1
    congr 1
    simp [List.length_take]
    omega

/-- C7: `merge_fruits` of `PartIdCollector` and of `PartKeyRecordCollector`
concatenates the per-segment fruits in segment order, taking from each
later segment only up to the remaining budget, so the merged result is the
flattened concatenation truncated to `limit` and its length never exceeds
`limit`. -/
theorem merge_fruits_concat_truncate (limit : Nat)
    (partIdFruits : List (List Int))
    (recordFruits : List (List PartKeyRecord)) :
    partIdMergeFruits limit partIdFruits = partIdFruits.flatten.take limit ∧
    (partIdMergeFruits limit partIdFruits).length ≤ limit ∧
    partKeyRecordMergeFruits limit recordFruits
      = recordFruits.flatten.take limit ∧
    (partKeyRecordMergeFruits limit recordFruits).length ≤ limit := by
  have e1 : partIdMergeFruits limit partIdFruits
      = partIdFruits.flatten.take limit := by
    unfold partIdMergeFruits
    simpa using foldl_take_extend limit partIdFruits [] (by simp)
  have e2 : partKeyRecordMergeFruits limit recordFruits
      = recordFruits.flatten.take limit := by
    unfold partKeyRecordMergeFruits
    simpa using foldl_take_extend limit recordFruits [] (by simp)
  exact ⟨e1, by rw [e1]; exact List.length_take_le _ _,
    e2, by rw [e2]; exact List.length_take_le _ _⟩

/-- The derived `PartialEq` of `CachableQuery` agrees with structural
equality. -/
theorem cachableQueryBeq_iff (q₁ q₂ : CachableQuery) :
    cachableQueryBeq q₁ q₂ = true ↔ q₁ = q₂ := by
  cases q₁ <;> cases q₂ <;> simp [cachableQueryBeq]

/-- C8: the borrowed doc-set cache key `CachableQueryKey(s, &q)` hashes
identically to the owned key `(s, q.clone())` and its `Equivalent`
predicate agrees with structural equality of the owned pair; the same
coherence holds for the column cache's borrowed `(SegmentId, &str)` key
against the owned `(SegmentId, String)` key. -/
theorem borrowed_owned_key_coherence (k : CachableQueryKey) (ck : CacheKey) :
    k.hashTokens = ownedQueryKeyHashTokens k.intoOwned ∧
    (∀ key : Nat × CachableQuery, k.equivalent key = true ↔
      k.intoOwned = key) ∧
    ck.hashTokens = ownedCacheKeyHashTokens ck.intoOwned ∧
    (∀ key : Nat × String, ck.equivalent key = true ↔
      ck.intoOwned = key) := by
  refine ⟨rfl, ?_, rfl, ?_⟩
  · rintro ⟨s, q⟩
    simp [CachableQueryKey.equivalent, CachableQueryKey.intoOwned,
      cachableQueryBeq_iff, Prod.ext_iff]
  · rintro ⟨s, f⟩
    simp [CacheKey.equivalent, CacheKey.intoOwned, Prod.ext_iff]

/-- C10: `refreshReaders` swaps `changes_pending` to `false` before
attempting the writer commit, and the commit is attempted exactly when the
swapped-out value was `true`; consequently, when the commit (or the
subsequent reader reload) fails, the error is surfaced while the flag is
already `false`, so the pending-changes indication is lost — the
operation is not atomic on error. -/
theorem refresh_readers_clears_flag_before_commit
    (commitResult reloadResult : Except Err Unit) (pending : Bool) :
    (refreshReaders commitResult reloadResult pending).changesPending
        = false ∧
    (refreshReaders commitResult reloadResult pending).commitAttempted
        = pending ∧
    (∀ e, pending = true → commitResult = .error e →
      refreshReaders commitResult reloadResult pending
        = ⟨false, true, false, .error e⟩) ∧
    (∀ e, pending = true → commitResult = .ok () →
        reloadResult = .error e →
      refreshReaders commitResult reloadResult pending
        = ⟨false, true, true, .error e⟩) := by
  cases pending <;> cases commitResult <;> cases reloadResult <;>
    simp [refreshReaders]

/-- C10 witness: with the flag set and a failing commit, the call surfaces
the commit error, never reaches the reload, and leaves the flag `false`. -/
theorem refresh_readers_clears_flag_before_commit_witness :
    refreshReaders (.error .ioError) (.ok ()) true
      = ⟨false, true, false, .error .ioError⟩ :=
  (refresh_readers_clears_flag_before_commit (.error .ioError) (.ok ())
    true).2.2.1 .ioError rfl rfl

/-- While still inside the skipped prefix, `accept` only counts bytes and
leaves the inner automaton state untouched. -/
theorem sp_run_within_prefix {σ : Type} (a : SkipPrefixAutomaton σ)
    (w : List Nat) :
    ∀ s : SkipPrefixAutomatonState σ, s.count + w.length ≤ a.prefixSize →
      a.run s w = ⟨s.count + w.length, s.inner⟩ := by
  induction w with
  | nil =>
    intro s _
    cases s
    simp [SkipPrefixAutomaton.run]
  | cons b rest ih =>
    intro s h
    simp only [List.length_cons] at h
    have hc : s.count < a.prefixSize := by omega
    have hstep : a.accept s b = ⟨s.count + 1, s.inner⟩ := by
      simp [SkipPrefixAutomaton.accept, hc]
    simp only [SkipPrefixAutomaton.run, List.foldl_cons]
    rw [hstep]
    have hrec := ih ⟨s.count + 1, s.inner⟩ (by simp; omega)
    simp only [SkipPrefixAutomaton.run] at hrec
    rw [hrec]
    simp only [SkipPrefixAutomatonState.mk.injEq, List.length_cons]
    exact ⟨by omega, trivial⟩

/-- Once the counter has reached the prefix size, every byte is fed to the
inner automaton and the counter stays put. -/
theorem sp_run_at_prefix {σ : Type} (a : SkipPrefixAutomaton σ)
    (w : List Nat) :
    ∀ inner0 : σ, a.run ⟨a.prefixSize, inner0⟩ w
      = ⟨a.prefixSize, a.innerRun inner0 w⟩ := by
  induction w with
  | nil =>
    intro inner0
    simp [SkipPrefixAutomaton.run, SkipPrefixAutomaton.innerRun]
  | cons b rest ih =>
    intro inner0
    have hstep : a.accept ⟨a.prefixSize, inner0⟩ b
        = ⟨a.prefixSize, a.innerAccept inner0 b⟩ := by
      simp [SkipPrefixAutomaton.accept]
    simp only [SkipPrefixAutomaton.run, SkipPrefixAutomaton.innerRun,
      List.foldl_cons]
    rw [hstep]
    exact ih (a.innerAccept inner0 b)

/-- C5: with `prefix_size = k`, every state reached by feeding fewer than
`k` bytes from `start` has `is_match = false`, `can_match = true` and
`will_always_match = false`; and for every state reached by exactly `k`
bytes (of any values) followed by a suffix `w`, `is_match` equals the
inner automaton's `is_match` after running `w` alone — the first `k`
bytes are never fed to the inner automaton. -/
theorem skip_prefix_automaton_match {σ : Type} (a : SkipPrefixAutomaton σ)
    (w₁ : List Nat) (h₁ : w₁.length < a.prefixSize)
    (p w : List Nat) (h₂ : p.length = a.prefixSize) :
    a.is_match (a.run a.start w₁) = false ∧
    a.can_match (a.run a.start w₁) = true ∧
    a.will_always_match (a.run a.start w₁) = false ∧
    a.is_match (a.run a.start (p ++ w))
      = a.innerIsMatch (a.innerRun a.innerStart w) := by
  have hrun : a.run a.start w₁ = ⟨w₁.length, a.innerStart⟩ := by
    have h0 := sp_run_within_prefix a w₁ a.start
      (by simp [SkipPrefixAutomaton.start]; omega)
    simpa [SkipPrefixAutomaton.start] using h0
  have hrunp : a.run a.start (p ++ w)
      = ⟨a.prefixSize, a.innerRun a.innerStart w⟩ := by
    have hp : a.run a.start p = ⟨a.prefixSize, a.innerStart⟩ := by
      have h0 := sp_run_within_prefix a p a.start
        (by simp [SkipPrefixAutomaton.start]; omega)
      simpa [SkipPrefixAutomaton.start, h₂] using h0
    calc a.run a.start (p ++ w) = a.run (a.run a.start p) w := by
          simp [SkipPrefixAutomaton.run, List.foldl_append]
      _ = a.run ⟨a.prefixSize, a.innerStart⟩ w := by rw [hp]
      _ = ⟨a.prefixSize, a.innerRun a.innerStart w⟩ :=
          sp_run_at_prefix a w a.innerStart
  refine ⟨?_, ?_, ?_, ?_⟩ <;>
    simp [hrun, hrunp, SkipPrefixAutomaton.is_match,
      SkipPrefixAutomaton.can_match, SkipPrefixAutomaton.will_always_match,
      h₁]

/-- A concrete prefix-skipping automaton over a byte-summing inner
automaton, for evaluating the C5 theorem. -/
def exSkipAut : SkipPrefixAutomaton Nat :=
  ⟨2, 0, fun s b => s + b, fun s => s == 5, fun _ => true, fun _ => false⟩

/-- C5 witness: with `prefix_size = 2`, after the single byte `9` the
wrapper reports no match but can still match; after the two prefix bytes
`[1, 2]` and the suffix `[2, 3]`, `is_match` equals the inner automaton's
verdict on `[2, 3]` alone. -/
theorem skip_prefix_automaton_match_witness :
    exSkipAut.is_match (exSkipAut.run exSkipAut.start [9]) = false ∧
    exSkipAut.can_match (exSkipAut.run exSkipAut.start [9]) = true ∧
    exSkipAut.will_always_match (exSkipAut.run exSkipAut.start [9])
      = false ∧
    exSkipAut.is_match (exSkipAut.run exSkipAut.start ([1, 2] ++ [2, 3]))
      = exSkipAut.innerIsMatch
          (exSkipAut.innerRun exSkipAut.innerStart [2, 3]) :=
  skip_prefix_automaton_match exSkipAut [9] (by decide) [1, 2] [2, 3]
    (by decide)

/-- Once the part-key segment collector has stored a part key, every later
doc is ignored. -/
theorem pk_foldl_some (col : BytesColumn) (v : List Nat) :
    ∀ docs : List Nat, docs.foldl (pkCollect col) (some v) = some v := by
  intro docs
  induction docs with
  | nil => rfl
  | cons d rest ih => simpa [pkCollect] using ih

/-- On an empty state, one `collect` step is exactly the two-step
resolution of the doc. -/
theorem pk_collect_none_eq_resolve (col : BytesColumn) (d : Nat) :
    pkCollect col none d = pkResolve col d := by
  simp only [pkCollect, pkResolve]

/-- The harvested fruit of the part-key segment collector is the first
successful doc resolution among the matching docs. -/
theorem pk_collect_all_char (col : BytesColumn) :
    ∀ docs : List Nat,
      pkCollectAll col docs = (docs.filterMap (pkResolve col)).head? := by
  intro docs
  unfold pkCollectAll
  induction docs with
  | nil => rfl
  | cons d rest ih =>
    simp only [List.foldl_cons, pk_collect_none_eq_resolve,
      List.filterMap_cons]
    cases hres : pkResolve col d with
    | none => simpa [hres] using ih
    | some v => simp [hres, pk_foldl_some]

/-- Flattening a list of all-`none` options yields nothing. -/
theorem filterMap_id_all_none (fruits : List (Option (List Nat)))
    (h : ∀ f ∈ fruits, f = none) : fruits.filterMap id = [] := by
  induction fruits with
  | nil => rfl
  | cons x rest ih =>
    have hx : x = none := h x (by simp)
    subst hx
    have hrest := ih fun f hf => h f (by simp [hf])
    simpa using hrest

/-- A bytes column whose first matching doc (doc 0) has no ordinal while
the second (doc 1) resolves to the part key `[7]`. -/
def exBytesColumn : BytesColumn where
  ordsFirst := fun doc => if doc == 1 then some 0 else none
  ordToBytes := fun _ => .ok [7]

/-- C6 counterexample: the claim says the segment collector collects only
the first matching doc it sees, and that when that doc's ordinal lookup
fails it yields nothing.  On a column where the first matching doc (doc 0)
has no ordinal and the second (doc 1) resolves, the collector instead
moves on and collects doc 1's bytes — a doc that is not the first
matching doc seen, and a non-empty fruit where the claim predicts none. -/
theorem part_key_collector_counterexample :
    exBytesColumn.ordsFirst 0 = none ∧
    pkCollectAll exBytesColumn [0, 1] = some [7] := by
  exact ⟨rfl, rfl⟩

/-- C6 amended: the part-key segment collector collects the first matching
doc whose ordinal lookup and ordinal-to-bytes resolution both succeed;
docs seen after a successful collection are ignored; a doc where either
step fails is skipped without error (a later doc may still be collected);
`merge_fruits` returns the first non-empty segment fruit, discards the
rest, and returns `None` when every segment fruit is `None`. -/
theorem part_key_collector_amended (col : BytesColumn) (docs : List Nat)
    (b : List Nat) (fruits : List (Option (List Nat))) :
    docs.foldl (pkCollect col) (some b) = some b ∧
    pkCollectAll col docs = (docs.filterMap (pkResolve col)).head? ∧
    ((∀ f ∈ fruits, f = none) → pkMergeFruits fruits = none) ∧
    (∀ pre post : List (Option (List Nat)), (∀ f ∈ pre, f = none) →
      pkMergeFruits (pre ++ some b :: post) = some b) := by
  refine ⟨pk_foldl_some col b docs, pk_collect_all_char col docs, ?_, ?_⟩
  · intro h
    simp [pkMergeFruits, filterMap_id_all_none fruits h]
  · intro pre post h
    simp [pkMergeFruits, List.filterMap_append,
      filterMap_id_all_none pre h]

/-- C6 witness: on the concrete column, a pre-stored fruit survives later
docs, the harvest is the first successful resolution, an all-`None` merge
gives `None`, and a merge with one non-empty fruit returns it. -/
theorem part_key_collector_amended_witness :
    ([0, 1] : List Nat).foldl (pkCollect exBytesColumn) (some [9])
        = some [9] ∧
    pkCollectAll exBytesColumn [0, 1]
      = (([0, 1] : List Nat).filterMap (pkResolve exBytesColumn)).head? ∧
    pkMergeFruits [none, none] = none ∧
    pkMergeFruits ([none] ++ some [9] :: [some [3]]) = some [9] := by
  have h := part_key_collector_amended exBytesColumn [0, 1] [9] [none, none]
  exact ⟨h.1, h.2.1, h.2.2.1 (by simp), h.2.2.2 [none] [some [3]] (by simp)⟩

/-- The executor loop compiles at most once more than it already has, and
never again once a compiled weight is in hand. -/
theorem execLoop_compiles_le {Fruit : Type}
    (compile : Unit → Except Err Query)
    (evalWeight : Query → Segment → Except Err (List Nat))
    (collectSeg : BitSet → Nat → Segment → Except Err Fruit)
    (q : CachableQuery) :
    ∀ (segments : List Segment) (queryWeight : Option Query)
      (compiles : Nat) (cache : QueryCache) (acc : List Fruit) (ord : Nat),
      (execLoop compile evalWeight collectSeg q queryWeight compiles cache
          acc ord segments).2.2
        ≤ compiles + (if queryWeight.isSome then 0 else 1) := by
  intro segments
  induction segments with
  | nil =>
    intro qw n cache acc ord
    cases qw <;> simp [execLoop]
  | cons seg rest ih =>
    intro qw n cache acc ord
    cases hget : cacheGet cache seg.segId q with
    | some docs =>
      cases hc : collectSeg docs ord seg with
      | error e => cases qw <;> simp [execLoop, hget, hc]
      | ok fruit =>
        simp only [execLoop, hget, hc]
        exact ih qw n cache (fruit :: acc) (ord + 1)
    | none =>
      cases qw with
      | some w =>
        cases hev : evalWeight w seg with
        | error e => simp [execLoop, hget, hev]
        | ok docIds =>
          cases hc : collectSeg ⟨seg.maxDoc, docIds⟩ ord seg with
          | error e => simp [execLoop, hget, hev, hc]
          | ok fruit =>
            simp only [execLoop, hget, hev, hc]
            exact ih (some w) n _ (fruit :: acc) (ord + 1)
      | none =>
        cases hcomp : compile () with
        | error e => simp [execLoop, hget, hcomp]
        | ok w =>
          cases hev : evalWeight w seg with
          | error e => simp [execLoop, hget, hcomp, hev]
          | ok docIds =>
            cases hc : collectSeg ⟨seg.maxDoc, docIds⟩ ord seg with
            | error e => simp [execLoop, hget, hcomp, hev, hc]
            | ok fruit =>
              simp only [execLoop, hget, hcomp, hev, hc]
              have hrec := ih (some w) (n + 1)
                (if q.should_cache then
                  cacheInsert cache seg.segId q ⟨seg.maxDoc, docIds⟩
                else cache) (fruit :: acc) (ord + 1)
              simpa using hrec

/-- When every segment hits the doc-set cache, the executor loop is fully
determined by the cached bitsets: it invokes neither the compiler nor the
weight evaluation, leaves the cache untouched, and produces the
cache-replay result. -/
theorem execLoop_cached {Fruit : Type}
    (compile : Unit → Except Err Query)
    (evalWeight : Query → Segment → Except Err (List Nat))
    (collectSeg : BitSet → Nat → Segment → Except Err Fruit)
    (mergeFruits : List Fruit → Except Err Fruit)
    (cache : QueryCache) (q : CachableQuery) :
    ∀ (segments : List Segment) (acc : List Fruit) (ord : Nat)
      (queryWeight : Option Query) (compiles : Nat)
      (r : Except Err Fruit),
      cachedRun.go collectSeg mergeFruits cache q acc ord segments
        = some r →
      mergeStep mergeFruits
          (execLoop compile evalWeight collectSeg q queryWeight compiles
            cache acc ord segments)
        = (r, cache, compiles) := by
  intro segments
  induction segments with
  | nil =>
    intro acc ord qw n r h
    simp only [cachedRun.go, Option.some.injEq] at h
    subst h
    simp [execLoop, mergeStep]
  | cons seg rest ih =>
    intro acc ord qw n r h
    cases hget : cacheGet cache seg.segId q with
    | none => simp [cachedRun.go, hget] at h
    | some docs =>
      cases hc : collectSeg docs ord seg with
      | error e =>
        simp only [cachedRun.go, hget, hc, Option.some.injEq] at h
        subst h
        simp [execLoop, hget, hc, mergeStep]
      | ok fruit =>
        have h' : cachedRun.go collectSeg mergeFruits cache q
            (fruit :: acc) (ord + 1) rest = some r := by
          simpa [cachedRun.go, hget, hc] using h
        simp only [execLoop, hget, hc]
        exact ih (fruit :: acc) (ord + 1) qw n r h'

/-- C1: one executor call compiles the query (`to_query` plus weight
conversion) at most once regardless of the number of segments; and when
every segment's `(segment_id, query)` key is present in the doc-set
cache, the call performs zero compilations, leaves the cache unchanged,
and returns the cache-replay result whatever the compiler would have done
— in particular a `Complex` query whose payload would fail parsing still
returns the cached result rather than an error. -/
theorem execute_cachable_query_lazy_compile {Fruit : Type}
    (compile : Unit → Except Err Query)
    (evalWeight : Query → Segment → Except Err (List Nat))
    (collectSeg : BitSet → Nat → Segment → Except Err Fruit)
    (mergeFruits : List Fruit → Except Err Fruit)
    (cache : QueryCache) (segments : List Segment) (q : CachableQuery) :
    (executeCachableQuery compile evalWeight collectSeg mergeFruits cache
        segments q).2.2 ≤ 1 ∧
    ∀ r, cachedRun collectSeg mergeFruits cache q segments = some r →
      executeCachableQuery compile evalWeight collectSeg mergeFruits cache
          segments q = (r, cache, 0) := by
  constructor
  · have hms : ∀ x : Except Err (List Fruit) × QueryCache × Nat,
        (mergeStep mergeFruits x).2.2 = x.2.2 := by
      rintro ⟨res, c, m⟩
      cases res <;> rfl
    rw [executeCachableQuery, hms]
    simpa using execLoop_compiles_le compile evalWeight collectSeg q
      segments none 0 cache [] 0
  · intro r h
    rw [executeCachableQuery]
    exact execLoop_cached compile evalWeight collectSeg mergeFruits cache q
      segments [] 0 none 0 r (by simpa [cachedRun] using h)

/-- A one-segment doc-set cache pre-populated for the `Complex [9]`
query on segment 0. -/
def exCache : QueryCache := [((0, CachableQuery.Complex [9]), ⟨5, [1, 2]⟩)]

/-- C1 witness: with the only segment's key cached, an executor call whose
`Complex` payload fails to parse still returns the cached bitset's docs,
with zero compiler invocations and an unchanged cache. -/
theorem execute_cachable_query_lazy_compile_witness :
    executeCachableQuery
        (fun _ => toQuery (fun _ _ _ => .error .parseError) [] none
          (CachableQuery.Complex [9]))
        (fun _ _ => .error .runtimeError)
        (fun bs _ _ => .ok bs.bits)
        (fun fs => .ok fs.flatten)
        exCache [⟨0, 5⟩] (CachableQuery.Complex [9])
      = (.ok [1, 2], exCache, 0) :=
  (execute_cachable_query_lazy_compile
      (fun _ => toQuery (fun _ _ _ => .error .parseError) [] none
        (CachableQuery.Complex [9]))
      (fun _ _ => .error .runtimeError)
      (fun bs _ _ => .ok bs.bits)
      (fun fs => .ok fs.flatten)
      exCache [⟨0, 5⟩] (CachableQuery.Complex [9])).2 (.ok [1, 2]) rfl

/-- For a query shape that is not cached, the executor loop never touches
the doc-set cache. -/
theorem execLoop_cache_unchanged {Fruit : Type}
    (compile : Unit → Except Err Query)
    (evalWeight : Query → Segment → Except Err (List Nat))
    (collectSeg : BitSet → Nat → Segment → Except Err Fruit)
    (q : CachableQuery) (hq : q.should_cache = false) :
    ∀ (segments : List Segment) (queryWeight : Option Query)
      (compiles : Nat) (cache : QueryCache) (acc : List Fruit) (ord : Nat),
      (execLoop compile evalWeight collectSeg q queryWeight compiles cache
          acc ord segments).2.1 = cache := by
  intro segments
  induction segments with
  | nil =>
    intro qw n cache acc ord
    simp [execLoop]
  | cons seg rest ih =>
    intro qw n cache acc ord
    cases hget : cacheGet cache seg.segId q with
    | some docs =>
      cases hc : collectSeg docs ord seg with
      | error e => simp [execLoop, hget, hc]
      | ok fruit =>
        simp only [execLoop, hget, hc]
        exact ih qw n cache (fruit :: acc) (ord + 1)
    | none =>
      cases qw with
      | some w =>
        cases hev : evalWeight w seg with
        | error e => simp [execLoop, hget, hev]
        | ok docIds =>
          cases hc : collectSeg ⟨seg.maxDoc, docIds⟩ ord seg with
          | error e => simp [execLoop, hget, hev, hc, hq]
          | ok fruit =>
            simp only [execLoop, hget, hev, hc, hq, Bool.false_eq_true,
              if_false]
            exact ih (some w) n cache (fruit :: acc) (ord + 1)
      | none =>
        cases hcomp : compile () with
        | error e => simp [execLoop, hget, hcomp]
        | ok w =>
          cases hev : evalWeight w seg with
          | error e => simp [execLoop, hget, hcomp, hev]
          | ok docIds =>
            cases hc : collectSeg ⟨seg.maxDoc, docIds⟩ ord seg with
            | error e => simp [execLoop, hget, hcomp, hev, hc, hq]
            | ok fruit =>
              simp only [execLoop, hget, hcomp, hev, hc, hq,
                Bool.false_eq_true, if_false]
              exact ih (some w) (n + 1) cache (fruit :: acc) (ord + 1)

/-- C4: executing a query whose shape is not cacheable (`All` or
`ByPartId`) leaves the doc-set cache exactly as it was: no entry keyed by
that query is inserted for any segment. -/
theorem uncachable_query_no_cache_insert {Fruit : Type}
    (compile : Unit → Except Err Query)
    (evalWeight : Query → Segment → Except Err (List Nat))
    (collectSeg : BitSet → Nat → Segment → Except Err Fruit)
    (mergeFruits : List Fruit → Except Err Fruit)
    (cache : QueryCache) (segments : List Segment) (q : CachableQuery)
    (hq : q = CachableQuery.All ∨ ∃ x, q = CachableQuery.ByPartId x) :
    (executeCachableQuery compile evalWeight collectSeg mergeFruits cache
        segments q).2.1 = cache := by
  have hsc : q.should_cache = false := by
    rcases hq with h | ⟨x, h⟩ <;> subst h <;> rfl
  have hms : ∀ x : Except Err (List Fruit) × QueryCache × Nat,
      (mergeStep mergeFruits x).2.1 = x.2.1 := by
    rintro ⟨res, c, m⟩
    cases res <;> rfl
  rw [executeCachableQuery, hms]
  exact execLoop_cache_unchanged compile evalWeight collectSeg q hsc
    segments none 0 cache [] 0

/-- C4 witness: running the `All` query over one segment with an empty
doc-set cache leaves the cache empty. -/
theorem uncachable_query_no_cache_insert_witness :
    (executeCachableQuery (fun _ => .ok Query.all)
        (fun _ _ => .ok [0]) (fun bs _ _ => .ok bs.bits)
        (fun fs => .ok fs.flatten) [] [⟨0, 3⟩] CachableQuery.All).2.1
      = ([] : QueryCache) :=
  uncachable_query_no_cache_insert (fun _ => .ok Query.all)
    (fun _ _ => .ok [0]) (fun bs _ _ => .ok bs.bits)
    (fun fs => .ok fs.flatten) [] [⟨0, 3⟩] CachableQuery.All (Or.inl rfl)

/-- C9: `queryPartKey` rejects every `limit ≠ 1` with the spec's
`InvalidArgument` error kind before reading the query or touching the
index — for every collaborator and cache the result is the bare error
with an unchanged cache and zero compilations; with `limit = 1` it is
exactly the executor run of the `Complex` query under the part-key
collector, whose fruit is the matching part key bytes or `none` when
there is no match. -/
theorem query_part_key_limit_check
    (parse : List Nat → List String → Option String → Except Err Query)
    (schema : List String) (defaultField : Option String)
    (evalWeight : Query → Segment → Except Err (List Nat))
    (getBytesColumn : Segment → Except Err (Option BytesColumn))
    (cache : QueryCache) (segments : List Segment)
    (queryBytes : List Nat) (limit : Int) :
    (limit ≠ 1 →
      queryPartKey parse schema defaultField evalWeight getBytesColumn
          cache segments queryBytes limit
        = (.error .invalidArgument, cache, 0)) ∧
    (limit = 1 →
      queryPartKey parse schema defaultField evalWeight getBytesColumn
          cache segments queryBytes limit
        = executeCachableQuery
            (fun _ => toQuery parse schema defaultField
              (CachableQuery.Complex queryBytes))
            evalWeight (pkCollectSeg getBytesColumn) pkMergeFruitsE
            cache segments (CachableQuery.Complex queryBytes)) := by
  constructor
  · intro h
    simp [queryPartKey, h]
  · intro h
    subst h
    simp [queryPartKey]

/-- C9 witness: `limit = 5` is rejected with the invalid-argument error
even under collaborators that would fail loudly, and `limit = 1` runs the
part-key executor pipeline. -/
theorem query_part_key_limit_check_witness :
    queryPartKey (fun _ _ _ => .error .parseError) [] none
        (fun _ _ => .error .runtimeError) (fun _ => .ok none) [] [] [1] 5
      = (.error .invalidArgument, [], 0) ∧
    queryPartKey (fun _ _ _ => .error .parseError) [] none
        (fun _ _ => .error .runtimeError) (fun _ => .ok none) [] [] [1] 1
      = executeCachableQuery
          (fun _ => toQuery (fun _ _ _ => .error .parseError) [] none
            (CachableQuery.Complex [1]))
          (fun _ _ => .error .runtimeError)
          (pkCollectSeg (fun _ => .ok none)) pkMergeFruitsE [] []
          (CachableQuery.Complex [1]) :=
  ⟨(query_part_key_limit_check (fun _ _ _ => .error .parseError) [] none
      (fun _ _ => .error .runtimeError) (fun _ => .ok none) [] [] [1] 5).1
      (by decide),
   (query_part_key_limit_check (fun _ _ _ => .error .parseError) [] none
      (fun _ _ => .error .runtimeError) (fun _ => .ok none) [] [] [1] 1).2
      rfl⟩

/-- C3 witness: a concrete cacheable and a concrete non-cacheable query,
evaluated through the classification theorem. -/
theorem should_cache_exactly_witness :
    (CachableQuery.Complex [1]).should_cache = true ∧
    CachableQuery.All.should_cache = false :=
  ⟨(should_cache_exactly (CachableQuery.Complex [1])).1.mpr
      (Or.inl ⟨[1], rfl⟩),
   (should_cache_exactly CachableQuery.All).2.mpr (Or.inl rfl)⟩

/-- C2 witness: the amended closed form evaluated at the repository's own
`ByPartIds([1,2])`, `max_value = 1` test vector. -/
theorem weighter_weight_closed_form_witness :
    weight (0, CachableQuery.ByPartIds [1, 2]) ⟨1, []⟩
      = KEY_STRUCT_SIZE + (4 * 2 + BOX_SLICE_SIZE) + 8 * ((1 + 63) / 64) :=
  weighter_weight_closed_form 0 (CachableQuery.ByPartIds [1, 2]) ⟨1, []⟩

/-- C7 witness: the merge theorem evaluated on concrete two-segment
fruits under `limit = 2`. -/
theorem merge_fruits_concat_truncate_witness :
    partIdMergeFruits 2 [[1, 10], [7]]
        = ([[1, 10], [7]] : List (List Int)).flatten.take 2 ∧
    (partIdMergeFruits 2 [[1, 10], [7]]).length ≤ 2 ∧
    partKeyRecordMergeFruits 2 [[⟨[65], 1234, 1235⟩], [⟨[66], 4321, 10000⟩]]
        = ([[⟨[65], 1234, 1235⟩], [⟨[66], 4321, 10000⟩]]
            : List (List PartKeyRecord)).flatten.take 2 ∧
    (partKeyRecordMergeFruits 2
        [[⟨[65], 1234, 1235⟩], [⟨[66], 4321, 10000⟩]]).length ≤ 2 :=
  merge_fruits_concat_truncate 2 [[1, 10], [7]]
    [[⟨[65], 1234, 1235⟩], [⟨[66], 4321, 10000⟩]]

/-- C8 witness: hash-token and equivalence coherence evaluated at the
repository's own `ByPartId(1234)` test key and a `"foo"` column key. -/
theorem borrowed_owned_key_coherence_witness :
    (CachableQueryKey.mk 0 (CachableQuery.ByPartId 1234)).hashTokens
      = ownedQueryKeyHashTokens (0, CachableQuery.ByPartId 1234) ∧
    (CachableQueryKey.mk 0 (CachableQuery.ByPartId 1234)).equivalent
        (0, CachableQuery.ByPartId 1234) = true ∧
    (CacheKey.mk 0 "foo").hashTokens = ownedCacheKeyHashTokens (0, "foo") ∧
    (CacheKey.mk 0 "foo").equivalent (0, "foo") = true :=
  have h := borrowed_owned_key_coherence ⟨0, CachableQuery.ByPartId 1234⟩
    ⟨0, "foo"⟩
  ⟨h.1, (h.2.1 (0, CachableQuery.ByPartId 1234)).mpr rfl, h.2.2.1,
    (h.2.2.2 (0, "foo")).mpr rfl⟩

end Theorems

end FiloDB
